import Mathlib

/-!
Shallow embedding of `portfolio_bot.py` (a RAG portfolio chatbot): the text
chunker, the ChromaDB-backed knowledge-base search and refresh, the tool
dispatcher and the chat orchestration, together with theorems settling the
specification claims about them.

External collaborators (the ChromaDB collection, the OpenAI-compatible model
service, the filesystem readers) are modelled as explicit parameters at the
call boundary; a Python exception is modelled as `Except.error`.
-/

namespace PortfolioBot

/-- The whitespace characters recognised by Python `str.split()` /
`str.strip()` with no argument. -/
def isPySpace (c : Char) : Bool :=
  c = ' ' || c = '\t' || c = '\n' || c = '\r' || c = '\x0b' || c = '\x0c'

/-- Worker for Python `text.split()`: split a character list on runs of
whitespace, dropping empty words; `acc` holds the current word reversed. -/
def splitAux : List Char → List Char → List (List Char)
  | [], acc => if acc.isEmpty then [] else [acc.reverse]
  | c :: cs, acc =>
    if isPySpace c then
      if acc.isEmpty then splitAux cs [] else acc.reverse :: splitAux cs []
    else splitAux cs (c :: acc)

/-- Python `text.split()` (line 94 of `portfolio_bot.py`:
`words = text.split()`). -/
def pySplit (s : String) : List String :=
  (splitAux s.data []).map String.mk

/-- Python `" ".join(words)` (line 98), as a character list. -/
def pyJoin : List String → List Char
  | [] => []
  | [w] => w.data
  | w :: ws => w.data ++ ' ' :: pyJoin ws

/-- Python `s.strip()`: drop whitespace at both ends of the string. -/
def pyStrip (s : String) : String :=
  String.mk (((s.data.dropWhile isPySpace).reverse.dropWhile isPySpace).reverse)

/-- Python `range(0, n, step)` for a positive `step`:
the multiples of `step` below `n`. -/
def stepIndices (n step : Nat) : List Nat :=
  (List.range ((n + step - 1) / step)).map (fun k => k * step)

/-- Embeds `PersonalKnowledgeBase._chunk_text` (lines 92-102) applied to an
already split word list.  The loop header
`range(0, len(words), chunk_size - overlap)` raises `ValueError` when the
advance step `chunk_size - overlap` is zero, and produces no indices when
the step is negative (Python `range` with a negative step counts downwards
from 0 and immediately stops).  Each window `words[i:i + chunk_size]` is
joined with single spaces and kept only when it is non-empty after
stripping. -/
def chunk_words (words : List String) (chunk_size overlap : Nat) :
    Except String (List String) :=
  let step : Int := (chunk_size : Int) - (overlap : Int)
  if step = 0 then Except.error "ValueError: range() arg 3 must not be zero"
  else if step < 0 then Except.ok []
  else Except.ok
    (((stepIndices words.length step.toNat).map
        (fun i => String.mk (pyJoin ((words.drop i).take chunk_size)))).filter
      (fun c => !(pyStrip c == "")))

/-- Embeds `PersonalKnowledgeBase._chunk_text` (lines 92-102): split the
text into words, then into overlapping windows. -/
def chunk_text (text : String) (chunk_size overlap : Nat) :
    Except String (List String) :=
  chunk_words (pySplit text) chunk_size overlap

/-- One formatted result of `PersonalKnowledgeBase.search` (lines 172-177 of
`portfolio_bot.py`).  Distances are modelled as exact rationals. -/
structure SearchResult where
  content : String
  source : String
  relevance_score : ℚ
deriving Repr, DecidableEq

/-- The reply of `collection.query` (lines 164-167) for the single query
text: `documents[0]`, the `source` field of each entry of `metadatas[0]`, and
`distances[0]` when the reply carries a `distances` key. -/
structure QueryReply where
  documents : List String
  sources : List String
  distances : Option (List ℚ)
deriving Repr, DecidableEq

/-- The result-formatting loop of `search` (lines 170-177): index `i` walks
`documents`, reading `metadatas[0][i]` and, when present, `distances[0][i]`;
an out-of-range index raises `IndexError` (`none` here), which the
surrounding `except` turns into `[]`. -/
def formatResults :
    List String → List String → Option (List ℚ) → Option (List SearchResult)
  | [], _, _ => some []
  | d :: ds, s :: ss, none =>
    (formatResults ds ss none).map (fun out => ⟨d, s, 1⟩ :: out)
  | d :: ds, s :: ss, some (q :: qs) =>
    (formatResults ds ss (some qs)).map (fun out => ⟨d, s, 1 - q⟩ :: out)
  | _ :: _, [], _ => none
  | _ :: _, _ :: _, some [] => none

/-- Embeds `PersonalKnowledgeBase.search` (lines 161-182), given the backend
reply of `collection.query`.  `Except.error` is an exception raised at the
collaborator boundary; the `except` at line 180 turns any exception into
`[]`. -/
def search (reply : Except Unit QueryReply) : List SearchResult :=
  match reply with
  | Except.error _ => []
  | Except.ok r =>
    if r.documents.isEmpty then []
    else
      match formatResults r.documents r.sources r.distances with
      | some out => out
      | none => []

/-- The three result dictionaries `PortfolioChatBot._execute_function` can
return (lines 287-299): `{success: True, context, sources, num_results}`,
`{success: False, message}` and `{error}`. -/
inductive FnResult where
  | searchSuccess (context : String) (sources : List String) (num_results : Nat)
  | searchEmpty (message : String)
  | unknownFunction (error : String)
deriving Repr, DecidableEq

/-- The context formatting at lines 283-286:
`"\n\n".join("[From <source>]\n<content>" per result)`. -/
def formatContext (rs : List SearchResult) : String :=
  String.intercalate "\n\n"
    (rs.map (fun r => "[From " ++ r.source ++ "]\n" ++ r.content))

/-- Embeds `PortfolioChatBot._execute_function` (lines 276-299).  The
knowledge-base search is `search` applied to the backend reply for
`(query, top_k = 3)`; `arguments["query"]` on a mapping without the key
raises `KeyError`. -/
def execute_function (backend : String → Nat → Except Unit QueryReply)
    (function_name : String) (arguments : List (String × String)) :
    Except String FnResult :=
  if function_name = "search_knowledge_base" then
    match arguments.lookup "query" with
    | none => Except.error "KeyError: query"
    | some q =>
      let results := search (backend q 3)
      if results.isEmpty then
        Except.ok (FnResult.searchEmpty
          "No relevant information found in knowledge base")
      else
        Except.ok (FnResult.searchSuccess (formatContext results)
          (results.map SearchResult.source) results.length)
  else
    Except.ok (FnResult.unknownFunction
      ("Unknown function: " ++ function_name))

/-- A stored chat message (the `Message` dataclass, lines 19-28).  `content`
is `none` when the model returned `null` content; the wall-clock `timestamp`
default is environment input and is not modelled. -/
structure Message where
  role : String
  content : Option String
deriving Repr, DecidableEq

/-- An entry of the per-call request context (the local `messages` list of
`chat`, lines 308-354): a plain `{role, content}` entry, the assistant
tool-call entry appended at lines 338-349 (arguments kept in parsed form),
or the `tool`-role entry appended at lines 350-354 carrying the serialised
function result. -/
inductive CtxMsg where
  | plain (role : String) (content : Option String)
  | assistantToolCall (content : Option String) (callId : String)
      (function_name : String) (arguments : List (String × String))
  | toolResult (callId : String) (result : FnResult)
deriving Repr, DecidableEq

/-- One tool call of a model response (`tool_calls[i]`), with its arguments
already parsed (the `json.loads` at line 332 is assumed to succeed on the
model-supplied argument string). -/
structure LLMToolCall where
  id : String
  function_name : String
  arguments : List (String × String)
deriving Repr, DecidableEq

/-- A model-service response: `message.content` and `message.tool_calls`
(an absent/`None` `tool_calls` attribute is the empty list). -/
structure LLMResponse where
  content : Option String
  toolCalls : List LLMToolCall
deriving Repr, DecidableEq

/-- The observable outcome of one `chat` call: the returned answer, the new
stored `conversation_history`, the round-1 request context, and the round-2
request context when the tool path was taken. -/
structure ChatResult where
  answer : Option String
  history : List Message
  firstRequest : List CtxMsg
  secondRequest : Option (List CtxMsg)
deriving Repr, DecidableEq

/-- Projection of a stored message into a request-context entry
(line 313: `{"role": msg.role, "content": msg.content}`). -/
def ctxOfMsg (m : Message) : CtxMsg :=
  CtxMsg.plain m.role m.content

/-- Embeds `PortfolioChatBot.chat` (lines 301-371), parameterised by the
model-service oracle `llm` (called with `true` for round 1, where the tool
schema is declared, and `false` for the round-2 call without tools) and by
the knowledge-base backend.  The user message is appended to the history
(line 306), the request context is the system prompt plus
`conversation_history[-10:]` (lines 309-313), at most the first tool call is
executed (line 330), and an exception from the executed function (`KeyError`
on a missing `query` argument) propagates out of `chat`. -/
def chat (llm : Bool → List CtxMsg → LLMResponse)
    (backend : String → Nat → Except Unit QueryReply)
    (system_prompt : String) (history : List Message) (user_message : String) :
    Except String ChatResult :=
  let hist1 := history ++ [⟨"user", some user_message⟩]
  let messages := CtxMsg.plain "system" (some system_prompt) ::
    (hist1.drop (hist1.length - 10)).map ctxOfMsg
  let resp := llm true messages
  match resp.toolCalls with
  | [] =>
    Except.ok ⟨resp.content, hist1 ++ [⟨"assistant", resp.content⟩],
      messages, none⟩
  | tc :: _ =>
    match execute_function backend tc.function_name tc.arguments with
    | Except.error e => Except.error e
    | Except.ok fnResult =>
      let messages2 := messages ++
        [CtxMsg.assistantToolCall resp.content tc.id tc.function_name
            tc.arguments,
          CtxMsg.toolResult tc.id fnResult]
      let resp2 := llm false messages2
      Except.ok ⟨resp2.content, hist1 ++ [⟨"assistant", resp2.content⟩],
        messages, some messages2⟩

/-- The last `k` entries of a list, in order. -/
def lastN {α : Type} (k : Nat) (l : List α) : List α :=
  (l.reverse.take k).reverse

/-- The externally observable points of
`PersonalKnowledgeBase.refresh_knowledge_base` (lines 184-201): before the
call, after `delete_collection` (line 188), after `create_collection`
(line 193), and after `_load_documents` has re-inserted the batch
(line 200).  The method takes no lock and builds in place, so each point is
reachable by a concurrent reader. -/
inductive RefreshPoint where
  | before
  | afterDelete
  | afterCreate
  | afterLoad
deriving Repr, DecidableEq

/-- The collection contents observable at each point of a rebuild from the
`old` entries to the `new` entries: `none` models the window in which the
collection is deleted and not yet recreated (a query there raises inside the
backend). -/
def collection_during_refresh (old new : List String) :
    RefreshPoint → Option (List String)
  | RefreshPoint.before => some old
  | RefreshPoint.afterDelete => none
  | RefreshPoint.afterCreate => some []
  | RefreshPoint.afterLoad => some new

/-- What a concurrent query observes at a refresh point: the entries of the
current collection, and `[]` for the deleted collection (the backend raises
and `search`'s `except` at line 180 returns `[]`). -/
def query_during_refresh (old new : List String) (p : RefreshPoint) :
    List String :=
  match collection_during_refresh old new p with
  | none => []
  | some entries => entries

/-- The decimal digit character for `d` (`d ≤ 9`; larger values give `'9'`,
a case `natChars` never reaches). -/
def digitChar (d : Nat) : Char :=
  if d = 0 then '0' else if d = 1 then '1' else if d = 2 then '2'
  else if d = 3 then '3' else if d = 4 then '4' else if d = 5 then '5'
  else if d = 6 then '6' else if d = 7 then '7' else if d = 8 then '8'
  else '9'

/-- The decimal rendering of a natural number as a character list, matching
Python `str(n)` for a non-negative `n`. -/
def natChars (n : Nat) : List Char :=
  if _h : n < 10 then [digitChar n]
  else natChars (n / 10) ++ [digitChar (n % 10)]
decreasing_by
  exact Nat.div_lt_self (by omega) (by omega)

/-- Python `str(n)` for a natural number. -/
def pyNatStr (n : Nat) : String := String.mk (natChars n)

/-- The chunk ID `f"{filepath.stem}_chunk_{doc_count}_{i}"` built at
line 138. -/
def doc_id (stem : String) (doc_count i : Nat) : String :=
  stem ++ "_chunk_" ++ pyNatStr doc_count ++ "_" ++ pyNatStr i

/-- The numeric value of a digit character. -/
def digitVal (c : Char) : Nat := c.toNat - 48

/-- The value of a decimal digit string. -/
def valOf (l : List Char) : Nat :=
  l.foldl (fun a c => 10 * a + digitVal c) 0

/-- Result of `_chunk_text` at the default call site (line 133) — the step
is `450`, so the `ValueError` branch is unreachable. -/
def chunk_text_default (text : String) : List String :=
  match chunk_text text 500 50 with
  | Except.ok cs => cs
  | Except.error _ => []

/-- The id-generation skeleton of `PersonalKnowledgeBase._load_documents`
(lines 104-147) over the readable files of the scan, each given by its
`filepath.stem` and extracted text content: a file whose content strips to
empty is skipped without incrementing `doc_count` (lines 128-130); otherwise
chunk `i` of the file receives the id `f"{stem}_chunk_{doc_count}_{i}"`
(line 138) and `doc_count` increments after the file's chunks (line 147). -/
def load_documents_ids : List (String × String) → Nat → List String
  | [], _ => []
  | (stem, content) :: rest, doc_count =>
    if pyStrip content = "" then load_documents_ids rest doc_count
    else
      (List.range (chunk_text_default content).length).map
          (fun i => doc_id stem doc_count i)
        ++ load_documents_ids rest (doc_count + 1)

/-- C2 — counterexample: at `chunk_size = overlap = 1` the chunker raises
`ValueError` (the zero step is rejected by `range` itself), so `_chunk_text`
does not "never raise" for `overlap ≥ chunk_size`. -/
theorem chunk_text_equal_overlap_raises :
    chunk_text "hello" 1 1 =
      Except.error "ValueError: range() arg 3 must not be zero" := rfl

/-- C2 (amended) — for `overlap ≥ chunk_size` the chunker never loops
forever: with `overlap = chunk_size` it raises `ValueError` (a zero step is
rejected by `range`, not clamped), and with `overlap > chunk_size` it
terminates normally returning the empty list. -/
theorem chunk_text_overlap_guard (text : String) (chunk_size overlap : Nat) :
    (chunk_size = overlap →
      chunk_text text chunk_size overlap =
        Except.error "ValueError: range() arg 3 must not be zero") ∧
    (chunk_size < overlap →
      chunk_text text chunk_size overlap = Except.ok []) := by
  constructor
  · intro h
    have h0 : (chunk_size : Int) - (overlap : Int) = 0 := by omega
    simp [chunk_text, chunk_words, h0]
  · intro h
    have h0 : ¬((chunk_size : Int) - (overlap : Int) = 0) := by omega
    have h1 : (chunk_size : Int) - (overlap : Int) < 0 := by omega
    simp [chunk_text, chunk_words, h0, h1]

/-- Witness for `chunk_text_overlap_guard` at concrete inputs. -/
theorem chunk_text_overlap_guard_witness :
    chunk_text "a b" 2 2 =
        Except.error "ValueError: range() arg 3 must not be zero" ∧
    chunk_text "a b" 2 3 = Except.ok [] :=
  ⟨(chunk_text_overlap_guard "a b" 2 2).1 rfl,
   (chunk_text_overlap_guard "a b" 2 3).2 (by decide)⟩

/-- Every word `splitAux` produces is non-empty and whitespace-free. -/
theorem splitAux_sound (cs : List Char) :
    ∀ (acc : List Char), (∀ c ∈ acc, isPySpace c = false) →
      ∀ w ∈ splitAux cs acc, w ≠ [] ∧ ∀ c ∈ w, isPySpace c = false := by
  induction cs with
  | nil =>
    intro acc hacc w hw
    cases acc with
    | nil => simp [splitAux] at hw
    | cons a as =>
      simp [splitAux] at hw
      subst hw
      refine ⟨by simp, ?_⟩
      intro c hc
      refine hacc c ?_
      rw [← List.mem_reverse]
      simpa using hc
  | cons c cs ih =>
    intro acc hacc w hw
    unfold splitAux at hw
    by_cases hsp : isPySpace c
    · rw [if_pos hsp] at hw
      cases acc with
      | nil =>
        simp at hw
        exact ih [] (by simp) w hw
      | cons a as =>
        simp at hw
        rcases hw with hw | hw
        · subst hw
          refine ⟨by simp, ?_⟩
          intro x hx
          refine hacc x ?_
          rw [← List.mem_reverse]
          simpa using hx
        · exact ih [] (by simp) w hw
    · rw [if_neg hsp] at hw
      refine ih (c :: acc) ?_ w hw
      intro x hx
      rcases List.mem_cons.mp hx with rfl | hx
      · simpa using hsp
      · exact hacc x hx

/-- Every word of `pySplit` is non-empty and whitespace-free. -/
theorem pySplit_words (s : String) :
    ∀ w ∈ pySplit s, w.data ≠ [] ∧ ∀ c ∈ w.data, isPySpace c = false := by
  intro w hw
  unfold pySplit at hw
  rcases List.mem_map.mp hw with ⟨cl, hcl, rfl⟩
  exact splitAux_sound s.data [] (by simp) cl hcl

/-- The join of a non-empty word list starts with the first word's first
character. -/
theorem pyJoin_head (w : String) (ws : List String) (c : Char) (l : List Char)
    (h : w.data = c :: l) : ∃ t, pyJoin (w :: ws) = c :: t := by
  cases ws with
  | nil => exact ⟨l, by simp [pyJoin, h]⟩
  | cons v vs => exact ⟨l ++ ' ' :: pyJoin (v :: vs), by simp [pyJoin, h]⟩

/-- A string whose first character is not whitespace strips to a non-empty
string. -/
theorem pyStrip_cons_ne (c : Char) (l : List Char) (hc : isPySpace c = false) :
    pyStrip (String.mk (c :: l)) ≠ "" := by
  unfold pyStrip
  intro h
  have hdata : (((c :: l).dropWhile isPySpace).reverse.dropWhile
      isPySpace).reverse = [] := congrArg String.data h
  rw [List.dropWhile_cons] at hdata
  rw [hc] at hdata
  simp only [Bool.false_eq_true, if_false, List.reverse_eq_nil_iff,
    List.dropWhile_eq_nil_iff] at hdata
  have := hdata c (by simp)
  rw [hc] at this
  exact Bool.false_ne_true this

theorem stepIndices_length (n s : Nat) :
    (stepIndices n s).length = (n + s - 1) / s := by
  simp [stepIndices]

theorem stepIndices_lt (n s i : Nat) (hs : 0 < s) (hi : i ∈ stepIndices n s) :
    i < n := by
  unfold stepIndices at hi
  rcases List.mem_map.mp hi with ⟨k, hk, rfl⟩
  have h1 : k + 1 ≤ (n + s - 1) / s := List.mem_range.mp hk
  have h2 : (k + 1) * s ≤ n + s - 1 := (Nat.le_div_iff_mul_le hs).mp h1
  have h3 : k * s + s ≤ n + s - 1 := by rw [Nat.succ_mul] at h2; exact h2
  omega

/-- At the default parameters the step is `450`, so `_chunk_text` reduces to
the windows at indices `0, 450, 900, …` filtered by non-emptiness. -/
theorem chunk_words_default (words : List String) :
    chunk_words words 500 50 = Except.ok
      (((stepIndices words.length 450).map
          (fun i => String.mk (pyJoin ((words.drop i).take 500)))).filter
        (fun c => !(pyStrip c == ""))) := rfl

/-- At the default parameters no window is dropped by the strip filter:
every window starts with a non-whitespace character. -/
theorem chunk_default_filter_all (words : List String)
    (hwords : ∀ w ∈ words, w.data ≠ [] ∧ ∀ c ∈ w.data, isPySpace c = false) :
    (((stepIndices words.length 450).map
        (fun i => String.mk (pyJoin ((words.drop i).take 500)))).filter
      (fun c => !(pyStrip c == ""))) =
    ((stepIndices words.length 450).map
      (fun i => String.mk (pyJoin ((words.drop i).take 500)))) := by
  apply List.filter_eq_self.mpr
  intro chunk hchunk
  rcases List.mem_map.mp hchunk with ⟨i, hi, rfl⟩
  have hilt : i < words.length := stepIndices_lt _ 450 i (by norm_num) hi
  obtain ⟨w, rest, hdrop⟩ : ∃ w rest, words.drop i = w :: rest := by
    cases hd : words.drop i with
    | nil =>
      exfalso
      have : words.length - i = 0 := by
        simpa using congrArg List.length hd
      omega
    | cons w rest => exact ⟨w, rest, rfl⟩
  have hwmem : w ∈ words := by
    refine List.drop_subset i words ?_
    rw [hdrop]
    exact List.mem_cons_self w rest
  obtain ⟨hne, hchars⟩ := hwords w hwmem
  obtain ⟨c, lw, hwdata⟩ : ∃ c lw, w.data = c :: lw := by
    cases hwd : w.data with
    | nil => exact absurd hwd hne
    | cons c lw => exact ⟨c, lw, rfl⟩
  have hcns : isPySpace c = false := by
    refine hchars c ?_
    rw [hwdata]
    exact List.mem_cons_self c lw
  rw [hdrop]
  have htake : (w :: rest).take 500 = w :: rest.take 499 := rfl
  rw [htake]
  obtain ⟨t, hjoin⟩ := pyJoin_head w (rest.take 499) c lw hwdata
  rw [hjoin]
  have hne' := pyStrip_cons_ne c t hcns
  simp [hne']

/-- C3 — `_chunk_text` at the default parameters (`chunk_size = 500`,
`overlap = 50`) produces exactly `⌈W / 450⌉` chunks for a text of `W` words,
and in particular the empty word sequence yields the empty chunk list. -/
theorem chunk_text_count (text : String) :
    (chunk_text text 500 50).map List.length
        = Except.ok (((pySplit text).length + 449) / 450) ∧
    ((pySplit text).length = 0 → chunk_text text 500 50 = Except.ok []) := by
  have key : chunk_text text 500 50 = Except.ok
      ((stepIndices (pySplit text).length 450).map
        (fun i => String.mk (pyJoin (((pySplit text).drop i).take 500)))) := by
    rw [chunk_text, chunk_words_default,
      chunk_default_filter_all (pySplit text) (pySplit_words text)]
  constructor
  · rw [key]
    show Except.ok (((stepIndices (pySplit text).length 450).map
        (fun i => String.mk (pyJoin (((pySplit text).drop i).take 500)))).length)
      = Except.ok (((pySplit text).length + 449) / 450)
    rw [List.length_map, stepIndices_length]
    norm_num
  · intro h0
    rw [key, h0]
    have : stepIndices 0 450 = [] := rfl
    rw [this]
    rfl

/-- Witness for `chunk_text_count` at a concrete input. -/
theorem chunk_text_count_witness :
    (chunk_text "" 500 50).map List.length = Except.ok 0 ∧
    chunk_text "" 500 50 = Except.ok [] :=
  ⟨(chunk_text_count "").1, (chunk_text_count "").2 rfl⟩

/-- C5 — counterexample: a backend distance of `2` (possible for an
unnormalised metric such as squared L2) yields `relevance_score = 1 - 2 = -1`,
outside `[0, 1]`: the code does not clamp. -/
theorem search_relevance_not_in_range :
    ¬(∀ r ∈ search (Except.ok ⟨["d"], ["s"], some [2]⟩),
        0 ≤ r.relevance_score ∧ r.relevance_score ≤ 1) := by
  intro h
  have hmem : (⟨"d", "s", 1 - 2⟩ : SearchResult)
      ∈ search (Except.ok ⟨["d"], ["s"], some [2]⟩) := by
    rw [show search (Except.ok ⟨["d"], ["s"], some [2]⟩)
        = [⟨"d", "s", 1 - 2⟩] from rfl]
    exact List.mem_cons_self _ _
  have h2 := h _ hmem
  norm_num at h2

theorem formatResults_dist_scores (docs srcs : List String) (qs : List ℚ)
    (out : List SearchResult)
    (h : formatResults docs srcs (some qs) = some out) :
    out.map SearchResult.relevance_score
      = (qs.take docs.length).map (fun q => 1 - q) := by
  induction docs generalizing srcs qs out with
  | nil =>
    rw [formatResults] at h
    cases h
    rfl
  | cons d ds ih =>
    cases srcs with
    | nil => rw [formatResults] at h; cases h
    | cons s ss =>
      cases qs with
      | nil => rw [formatResults] at h; cases h
      | cons q qs =>
        rw [formatResults] at h
        cases hrec : formatResults ds ss (some qs) with
        | none => rw [hrec] at h; cases h
        | some out' =>
          rw [hrec] at h
          cases h
          simpa using ih ss qs out' hrec

theorem formatResults_none_scores (docs srcs : List String)
    (out : List SearchResult)
    (h : formatResults docs srcs none = some out) :
    ∀ r ∈ out, r.relevance_score = 1 := by
  induction docs generalizing srcs out with
  | nil =>
    rw [formatResults] at h
    cases h
    simp
  | cons d ds ih =>
    cases srcs with
    | nil => rw [formatResults] at h; cases h
    | cons s ss =>
      rw [formatResults] at h
      cases hrec : formatResults ds ss none with
      | none => rw [hrec] at h; cases h
      | some out' =>
        rw [hrec] at h
        cases h
        intro r hr
        rcases List.mem_cons.mp hr with rfl | hr
        · rfl
        · exact ih ss out' hrec r hr

theorem formatResults_length (docs srcs : List String)
    (dq : Option (List ℚ)) (out : List SearchResult)
    (h : formatResults docs srcs dq = some out) :
    out.length = docs.length := by
  induction docs generalizing srcs dq out with
  | nil =>
    rw [formatResults] at h
    cases h
    rfl
  | cons d ds ih =>
    cases srcs with
    | nil => rw [formatResults] at h; cases h
    | cons s ss =>
      cases dq with
      | none =>
        rw [formatResults] at h
        cases hrec : formatResults ds ss none with
        | none => rw [hrec] at h; cases h
        | some out' =>
          rw [hrec] at h
          cases h
          simpa using ih ss none out' hrec
      | some qs =>
        cases qs with
        | nil => rw [formatResults] at h; cases h
        | cons q qs =>
          rw [formatResults] at h
          cases hrec : formatResults ds ss (some qs) with
          | none => rw [hrec] at h; cases h
          | some out' =>
            rw [hrec] at h
            cases h
            simpa using ih ss (some qs) out' hrec

/-- C5 (amended) — the relevance score is `1 - distance` when the backend
reply carries distances and `1` for every result when it does not; it lies in
`[0, 1]` exactly when the backend distances do (the code applies no
clamping). -/
theorem search_relevance_formula (docs srcs : List String) (qs : List ℚ)
    (out out1 : List SearchResult)
    (h : formatResults docs srcs (some qs) = some out)
    (h1 : formatResults docs srcs none = some out1) :
    out.map SearchResult.relevance_score
        = (qs.take docs.length).map (fun q => 1 - q) ∧
    ((∀ q ∈ qs, 0 ≤ q ∧ q ≤ 1) →
      ∀ r ∈ out, 0 ≤ r.relevance_score ∧ r.relevance_score ≤ 1) ∧
    (∀ r ∈ out1, r.relevance_score = 1) := by
  refine ⟨formatResults_dist_scores docs srcs qs out h, ?_,
    formatResults_none_scores docs srcs out1 h1⟩
  intro hq r hr
  have hmem : r.relevance_score ∈ out.map SearchResult.relevance_score :=
    List.mem_map.mpr ⟨r, hr, rfl⟩
  rw [formatResults_dist_scores docs srcs qs out h] at hmem
  rcases List.mem_map.mp hmem with ⟨q, hqmem, hscore⟩
  have hq' := hq q (List.take_subset _ _ hqmem)
  constructor
  · rw [← hscore]; linarith [hq'.2]
  · rw [← hscore]; linarith [hq'.1]

/-- Witness for `search_relevance_formula` at a concrete input. -/
theorem search_relevance_formula_witness :
    0 ≤ (SearchResult.mk "d" "s" (1 - (1 : ℚ)/2)).relevance_score ∧
    (SearchResult.mk "d" "s" (1 - (1 : ℚ)/2)).relevance_score ≤ 1 :=
  (search_relevance_formula ["d"] ["s"] [(1 : ℚ)/2]
      [⟨"d", "s", 1 - (1 : ℚ)/2⟩] [⟨"d", "s", 1⟩] rfl rfl).2.1
    (by norm_num) ⟨"d", "s", 1 - (1 : ℚ)/2⟩ (List.mem_cons_self _ _)

/-- C8 — `search` returns at most `top_k` results whenever the backend honours
`n_results=top_k` (at most `top_k` documents in the reply), returns `[]` on a
reply with no documents (empty index), and returns `[]` rather than raising
when the backend query fails. -/
theorem search_bounded (reply : Except Unit QueryReply) (top_k : Nat)
    (hk : ∀ r, reply = Except.ok r → r.documents.length ≤ top_k) :
    (search reply).length ≤ top_k ∧
    (∀ e, reply = Except.error e → search reply = []) ∧
    (∀ r, reply = Except.ok r → r.documents = [] → search reply = []) := by
  refine ⟨?_, ?_, ?_⟩
  · cases reply with
    | error e => simp [search]
    | ok r =>
      rw [search]
      by_cases hdoc : r.documents.isEmpty
      · simp [hdoc]
      · simp only [hdoc, Bool.false_eq_true, if_false]
        cases hfmt : formatResults r.documents r.sources r.distances with
        | none => simp
        | some out =>
          have hlen := formatResults_length r.documents r.sources r.distances out hfmt
          have hr := hk r rfl
          show out.length ≤ top_k
          omega
  · intro e he
    subst he
    rfl
  · intro r hr hdoc
    subst hr
    rw [search, hdoc]
    rfl

/-- Witness for `search_bounded` at a concrete input. -/
theorem search_bounded_witness :
    (search (Except.ok ⟨[], [], none⟩)).length ≤ 3 :=
  (search_bounded (Except.ok ⟨[], [], none⟩) 3
    (by intro r h; cases h; decide)).1

/-- C6 — counterexample: on an empty search the tool result's message is
`"No relevant information found in knowledge base"` (line 296), not the
claimed `"No relevant information found"`. -/
theorem execute_function_empty_message_differs :
    execute_function (fun _ _ => Except.ok ⟨[], [], none⟩)
        "search_knowledge_base" [("query", "x")]
      = Except.ok (FnResult.searchEmpty
          "No relevant information found in knowledge base") ∧
    "No relevant information found in knowledge base"
      ≠ "No relevant information found" :=
  ⟨rfl, by decide⟩

/-- C6 (amended) — whenever the underlying search returns no results, the
`search_knowledge_base` tool returns exactly
`{success: False, message: "No relevant information found in knowledge
base"}`. -/
theorem execute_function_search_empty
    (backend : String → Nat → Except Unit QueryReply)
    (arguments : List (String × String)) (q : String)
    (hq : arguments.lookup "query" = some q)
    (hempty : search (backend q 3) = []) :
    execute_function backend "search_knowledge_base" arguments
      = Except.ok (FnResult.searchEmpty
          "No relevant information found in knowledge base") := by
  rw [execute_function, if_pos rfl, hq]
  simp [hempty]

/-- Witness for `execute_function_search_empty` at a concrete input. -/
theorem execute_function_search_empty_witness :
    execute_function (fun _ _ => Except.error ())
        "search_knowledge_base" [("query", "anything")]
      = Except.ok (FnResult.searchEmpty
          "No relevant information found in knowledge base") :=
  execute_function_search_empty (fun _ _ => Except.error ())
    [("query", "anything")] "anything" rfl rfl

/-- C7 — for every tool name other than `search_knowledge_base` and every
argument mapping, `_execute_function` returns the error descriptor
`{error: "Unknown function: <name>"}` and does not raise. -/
theorem execute_function_unknown
    (backend : String → Nat → Except Unit QueryReply)
    (function_name : String) (arguments : List (String × String))
    (h : function_name ≠ "search_knowledge_base") :
    execute_function backend function_name arguments
      = Except.ok (FnResult.unknownFunction
          ("Unknown function: " ++ function_name)) := by
  rw [execute_function, if_neg h]

/-- Witness for `execute_function_unknown` at a concrete input. -/
theorem execute_function_unknown_witness :
    execute_function (fun _ _ => Except.error ()) "get_weather" []
      = Except.ok (FnResult.unknownFunction
          ("Unknown function: " ++ "get_weather")) :=
  execute_function_unknown (fun _ _ => Except.error ()) "get_weather" []
    (by decide)

theorem lastN_eq_drop {α : Type} (k : Nat) (l : List α) :
    lastN k l = l.drop (l.length - k) := by
  rw [lastN, ← List.rtake_eq_reverse_take_reverse, List.rtake]

theorem lastN_length {α : Type} (k : Nat) (l : List α) :
    (lastN k l).length = min l.length k := by
  rw [lastN, List.length_reverse, List.length_take, List.length_reverse]
  omega

/-- C4 — a `chat` call sends the model a round-1 request context consisting
of the system prompt followed by exactly the last `min(n, 10)` stored
messages in order, where `n = history.length + 1` is the stored history
length at request time (the just-appended user message included), while the
stored history retains all `n` messages (the result history extends them
with the final assistant message only). -/
theorem chat_request_window (llm : Bool → List CtxMsg → LLMResponse)
    (backend : String → Nat → Except Unit QueryReply)
    (system_prompt : String) (history : List Message) (user_message : String)
    (res : ChatResult)
    (h : chat llm backend system_prompt history user_message
      = Except.ok res) :
    res.firstRequest
        = CtxMsg.plain "system" (some system_prompt)
          :: (lastN 10 (history ++ [⟨"user", some user_message⟩])).map
              ctxOfMsg ∧
    (lastN 10 (history ++ [⟨"user", some user_message⟩])).length
        = min (history.length + 1) 10 ∧
    res.history
        = (history ++ [⟨"user", some user_message⟩])
            ++ [⟨"assistant", res.answer⟩] := by
  unfold chat at h
  dsimp only at h
  rw [lastN_eq_drop]
  split at h
  · cases h
    refine ⟨by simp, ?_, by simp⟩
    simp only [List.length_drop, List.length_append, List.length_cons,
      List.length_nil]
    omega
  · split at h
    · cases h
    · cases h
      refine ⟨by simp, ?_, by simp⟩
      simp only [List.length_drop, List.length_append, List.length_cons,
        List.length_nil]
      omega

/-- Witness for `chat_request_window` at a concrete input. -/
theorem chat_request_window_witness :
    (ChatResult.mk (some "Hi there!")
        [⟨"user", some "Hello"⟩, ⟨"assistant", some "Hi there!"⟩]
        [CtxMsg.plain "system" (some "sp"), CtxMsg.plain "user" (some "Hello")]
        none).firstRequest
      = CtxMsg.plain "system" (some "sp")
        :: (lastN 10 ([] ++ [(⟨"user", some "Hello"⟩ : Message)])).map
            ctxOfMsg :=
  (chat_request_window (fun _ _ => ⟨some "Hi there!", []⟩)
    (fun _ _ => Except.error ()) "sp" [] "Hello" _ rfl).1

/-- C10 — every successful `chat` call appends exactly two messages to the
stored history: the user message followed by one assistant message carrying
the final answer; intermediate tool-call/tool-role messages live only in the
per-call request context, never in the stored history. -/
theorem chat_appends_exactly_two (llm : Bool → List CtxMsg → LLMResponse)
    (backend : String → Nat → Except Unit QueryReply)
    (system_prompt : String) (history : List Message) (user_message : String)
    (res : ChatResult)
    (h : chat llm backend system_prompt history user_message
      = Except.ok res) :
    res.history
      = history
        ++ [⟨"user", some user_message⟩, ⟨"assistant", res.answer⟩] := by
  unfold chat at h
  dsimp only at h
  split at h
  · cases h
    simp
  · split at h
    · cases h
    · cases h
      simp

/-- Witness for `chat_appends_exactly_two` at a concrete input, exercising
the no-tool-call path. -/
theorem chat_appends_exactly_two_witness :
    (ChatResult.mk (some "Hi there!")
        [⟨"user", some "Hello"⟩, ⟨"assistant", some "Hi there!"⟩]
        [CtxMsg.plain "system" (some "sp"), CtxMsg.plain "user" (some "Hello")]
        none).history
      = []
        ++ [(⟨"user", some "Hello"⟩ : Message),
            ⟨"assistant", (ChatResult.mk (some "Hi there!")
              [⟨"user", some "Hello"⟩, ⟨"assistant", some "Hi there!"⟩]
              [CtxMsg.plain "system" (some "sp"),
                CtxMsg.plain "user" (some "Hello")] none).answer⟩] :=
  chat_appends_exactly_two (fun _ _ => ⟨some "Hi there!", []⟩)
    (fun _ _ => Except.error ()) "sp" [] "Hello" _ rfl

/-- C1 — counterexample: rebuilding a non-empty index (old entries `["a"]`,
new entries `["b"]`) is observable in the empty state right after
`create_collection`: a query there sees neither the old nor the new entry
set. -/
theorem rebuild_not_atomic :
    ¬(query_during_refresh ["a"] ["b"] RefreshPoint.afterCreate = ["a"] ∨
      query_during_refresh ["a"] ["b"] RefreshPoint.afterCreate = ["b"]) := by
  decide

/-- C1 (amended) — `refresh_knowledge_base` is not atomic: a concurrent query
observes the old entries before the rebuild, the empty set between
`delete_collection` and the completion of `_load_documents`, and the new
entries afterwards; in particular an empty index is externally observable
mid-rebuild even when old and new entry sets are non-empty. -/
theorem refresh_observable_states (old new : List String) :
    query_during_refresh old new RefreshPoint.before = old ∧
    query_during_refresh old new RefreshPoint.afterDelete = [] ∧
    query_during_refresh old new RefreshPoint.afterCreate = [] ∧
    query_during_refresh old new RefreshPoint.afterLoad = new :=
  ⟨rfl, rfl, rfl, rfl⟩

theorem digitChar_isDigit (d : Nat) : (digitChar d).isDigit = true := by
  unfold digitChar
  repeat' split
  all_goals decide

theorem digitChar_toNat (d : Nat) (h : d < 10) :
    (digitChar d).toNat = 48 + d := by
  interval_cases d <;> decide

theorem valOf_append (l : List Char) (c : Char) :
    valOf (l ++ [c]) = 10 * valOf l + digitVal c := by
  unfold valOf
  rw [List.foldl_append]
  rfl

theorem valOf_natChars (n : Nat) : valOf (natChars n) = n := by
  induction n using Nat.strong_induction_on with
  | _ n ih =>
    rw [natChars]
    by_cases h : n < 10
    · rw [dif_pos h]
      show 10 * 0 + digitVal (digitChar n) = n
      unfold digitVal
      rw [digitChar_toNat n h]
      omega
    · rw [dif_neg h]
      rw [valOf_append]
      rw [ih (n / 10) (Nat.div_lt_self (by omega) (by omega))]
      unfold digitVal
      rw [digitChar_toNat (n % 10) (Nat.mod_lt n (by omega))]
      omega

theorem natChars_inj (a b : Nat) (h : natChars a = natChars b) : a = b := by
  rw [← valOf_natChars a, ← valOf_natChars b, h]

theorem natChars_isDigit (n : Nat) :
    ∀ c ∈ natChars n, c.isDigit = true := by
  induction n using Nat.strong_induction_on with
  | _ n ih =>
    intro c hc
    rw [natChars] at hc
    by_cases h : n < 10
    · rw [dif_pos h] at hc
      simp at hc
      subst hc
      exact digitChar_isDigit _
    · rw [dif_neg h] at hc
      rcases List.mem_append.mp hc with hc | hc
      · exact ih (n / 10) (Nat.div_lt_self (by omega) (by omega)) c hc
      · simp at hc
        subst hc
        exact digitChar_isDigit _

/-- A digit string followed by an underscore-led tail is parsed uniquely:
the underscore cannot occur inside the digits. -/
theorem digit_underscore_split :
    ∀ (d1 d2 r1 r2 : List Char),
      (∀ c ∈ d1, c.isDigit = true) → (∀ c ∈ d2, c.isDigit = true) →
      d1 ++ '_' :: r1 = d2 ++ '_' :: r2 → d1 = d2 ∧ r1 = r2 := by
  intro d1
  induction d1 with
  | nil =>
    intro d2 r1 r2 _ h2 heq
    cases d2 with
    | nil => simpa using heq
    | cons c d2 =>
      exfalso
      simp at heq
      have hc := h2 c (List.mem_cons_self c d2)
      rw [← heq.1] at hc
      exact absurd hc (by decide)
  | cons c1 d1 ih =>
    intro d2 r1 r2 h1 h2 heq
    cases d2 with
    | nil =>
      exfalso
      simp at heq
      have hc := h1 c1 (List.mem_cons_self c1 d1)
      rw [heq.1] at hc
      exact absurd hc (by decide)
    | cons c2 d2 =>
      simp at heq
      obtain ⟨hc, htail⟩ := heq
      obtain ⟨hd, hr⟩ := ih d2 r1 r2
        (fun c hcm => h1 c (List.mem_cons_of_mem _ hcm))
        (fun c hcm => h2 c (List.mem_cons_of_mem _ hcm)) htail
      exact ⟨by rw [hc, hd], hr⟩

theorem doc_id_data (stem : String) (dc i : Nat) :
    (doc_id stem dc i).data
      = stem.data ++ ['_', 'c', 'h', 'u', 'n', 'k', '_'] ++ natChars dc
        ++ ['_'] ++ natChars i := rfl

theorem doc_id_data_rev (stem : String) (dc i : Nat) :
    (doc_id stem dc i).data.reverse
      = (natChars i).reverse ++ '_' :: ((natChars dc).reverse
          ++ '_' :: ('k' :: 'n' :: 'u' :: 'h' :: 'c' :: '_' ::
            stem.data.reverse)) := by
  rw [doc_id_data]
  simp [List.reverse_append]

/-- The chunk ID determines the stem, the document counter and the chunk
counter: parsing from the right, the decimal counters contain no
underscore. -/
theorem doc_id_inj (s1 s2 : String) (d1 i1 d2 i2 : Nat)
    (h : doc_id s1 d1 i1 = doc_id s2 d2 i2) :
    s1 = s2 ∧ d1 = d2 ∧ i1 = i2 := by
  have hr : (doc_id s1 d1 i1).data.reverse
      = (doc_id s2 d2 i2).data.reverse := by rw [h]
  rw [doc_id_data_rev, doc_id_data_rev] at hr
  obtain ⟨hi, hrest⟩ := digit_underscore_split _ _ _ _
    (fun c hc => natChars_isDigit i1 c (List.mem_reverse.mp hc))
    (fun c hc => natChars_isDigit i2 c (List.mem_reverse.mp hc)) hr
  obtain ⟨hd, hrest2⟩ := digit_underscore_split _ _ _ _
    (fun c hc => natChars_isDigit d1 c (List.mem_reverse.mp hc))
    (fun c hc => natChars_isDigit d2 c (List.mem_reverse.mp hc)) hrest
  have hs : s1.data.reverse = s2.data.reverse := by simpa using hrest2
  refine ⟨?_, ?_, ?_⟩
  · have hdata : s1.data = s2.data := by
      have h2 := congrArg List.reverse hs
      simpa using h2
    cases s1
    cases s2
    simp only at hdata
    rw [hdata]
  · refine natChars_inj d1 d2 ?_
    have h2 := congrArg List.reverse hd
    simpa using h2
  · refine natChars_inj i1 i2 ?_
    have h2 := congrArg List.reverse hi
    simpa using h2

theorem load_documents_ids_mem (files : List (String × String)) (dc : Nat)
    (x : String) (hx : x ∈ load_documents_ids files dc) :
    ∃ s d i, dc ≤ d ∧ x = doc_id s d i := by
  induction files generalizing dc with
  | nil => simp [load_documents_ids] at hx
  | cons f rest ih =>
    obtain ⟨stem, content⟩ := f
    rw [load_documents_ids] at hx
    by_cases hc : pyStrip content = ""
    · rw [if_pos hc] at hx
      exact ih dc hx
    · rw [if_neg hc] at hx
      rcases List.mem_append.mp hx with hx | hx
      · rcases List.mem_map.mp hx with ⟨i, _, rfl⟩
        exact ⟨stem, dc, i, Nat.le_refl dc, rfl⟩
      · obtain ⟨s, d, i, hd, hx⟩ := ih (dc + 1) hx
        exact ⟨s, d, i, by omega, hx⟩

theorem load_documents_ids_nodup_from (files : List (String × String)) :
    ∀ dc, (load_documents_ids files dc).Nodup := by
  induction files with
  | nil =>
    intro dc
    simp [load_documents_ids]
  | cons f rest ih =>
    intro dc
    obtain ⟨stem, content⟩ := f
    rw [load_documents_ids]
    by_cases hc : pyStrip content = ""
    · rw [if_pos hc]
      exact ih dc
    · rw [if_neg hc]
      refine List.Nodup.append ?_ (ih (dc + 1)) ?_
      · refine List.Nodup.map ?_ (List.nodup_range _)
        intro i1 i2 hi
        exact (doc_id_inj stem stem dc i1 dc i2 hi).2.2
      · intro x hx1 hx2
        rcases List.mem_map.mp hx1 with ⟨i, _, rfl⟩
        obtain ⟨s, d, j, hd, heq⟩ := load_documents_ids_mem rest (dc + 1) _ hx2
        have hdc := (doc_id_inj stem s dc i d j heq).2.1
        omega

/-- C9 — all chunk ids generated by one `_load_documents` run are pairwise
distinct, including when two source files share the same stem: ids of one
file differ in the chunk counter, ids of different files differ in the
document counter, and stem, document counter and chunk counter are uniquely
recoverable from the id string. -/
theorem load_documents_ids_distinct (files : List (String × String)) :
    (load_documents_ids files 0).Nodup :=
  load_documents_ids_nodup_from files 0

end PortfolioBot
